import Mathlib

/-!
Shallow embedding of the openchamber slash-command engine:
`CommandAutocomplete.tsx` (availability gating, catalog merge, filter, sort,
keyboard handling), `opencodeApi.ts` (HTTP error extraction), and the
session-store command dispatcher documented in `summary.md`.
-/

set_option linter.all false

namespace OpenChamber

/-- Role of a chat message (`info.role` in the session store). -/
inductive Role where
  | user
  | assistant
deriving DecidableEq, Repr

/-- `message.info` as read by the availability check. -/
structure MessageInfo where
  role : Role
deriving DecidableEq, Repr

/-- A message in the session store (`messages` map values). -/
structure Message where
  info : MessageInfo
deriving DecidableEq, Repr

/-- Activity phase tracked per session in `sessionActivityPhase`. -/
inductive ActivityPhase where
  | idle
  | busy
deriving DecidableEq, Repr

/-- `session.revert` — the pending-revert record; `messageID` may be absent. -/
structure RevertState where
  messageID : Option String
deriving DecidableEq, Repr

/-- A session record from the store's `sessions` array. -/
structure Session where
  id : String
  revert : Option RevertState
deriving DecidableEq, Repr

/-- The slice of the zustand session store read by `CommandAutocomplete`:
`currentSessionId`, the `messages` map, the `sessions` array and the
`sessionActivityPhase` map.  JS `Map`s are modelled as association lists. -/
structure SessionStoreState where
  currentSessionId : Option String
  messages : List (String × List Message)
  sessions : List Session
  sessionActivityPhase : List (String × ActivityPhase)
deriving DecidableEq, Repr

/-- `Map.get(k)` on an association list. -/
def mapGet {β : Type} (m : List (String × β)) (k : String) : Option β :=
  (m.find? (fun p => p.1 == k)).map (fun p => p.2)

/-- `currentSessionId ? useSessionStore.getState().messages.get(currentSessionId) || [] : []`. -/
def sessionMessages (st : SessionStoreState) : List Message :=
  match st.currentSessionId with
  | some sid => (mapGet st.messages sid).getD []
  | none => []

/-- `currentSessionId ? useSessionStore.getState().sessions.find(s => s.id === currentSessionId) : undefined`. -/
def currentSession (st : SessionStoreState) : Option Session :=
  match st.currentSessionId with
  | some sid => st.sessions.find? (fun s => s.id == sid)
  | none => none

/-- The selector's `messageCount`: `sessionId ? (state.messages.get(sessionId)?.length ?? 0) : 0`. -/
def selectorMessageCount (st : SessionStoreState) : Nat :=
  match st.currentSessionId with
  | some sid => ((mapGet st.messages sid).map List.length).getD 0
  | none => 0

/-- The selector's `hasMessagesInCurrentSession : messageCount > 0`. -/
def hasMessagesInCurrentSession (st : SessionStoreState) : Bool :=
  decide (0 < selectorMessageCount st)

/-- `sessionActivityPhase?.get(currentSessionId || '')`. -/
def currentActivityPhase (st : SessionStoreState) : Option ActivityPhase :=
  mapGet st.sessionActivityPhase (st.currentSessionId.getD "")

/-- JS truthiness of `session?.revert?.messageID` (`!!` coercion: an absent
session, absent revert record, absent id, or empty-string id are all falsy). -/
def revertTruthy (s : Option Session) : Bool :=
  match s with
  | some sess =>
    match sess.revert with
    | some r =>
      match r.messageID with
      | some id => decide (id ≠ "")
      | none => false
    | none => false
  | none => false

/-- `sessionMessages[sessionMessages.length - 1]?.info.role === 'user'`. -/
def lastRoleIsUser (msgs : List Message) : Bool :=
  match msgs.getLast? with
  | some m => m.info.role == Role.user
  | none => false

/-- A command entry (`CommandInfo` in the source); `isBuiltIn?: boolean` with
`undefined` falsy is modelled as a `Bool` defaulting to `false`. -/
structure CommandInfo where
  name : String
  description : Option String := none
  agent : Option String := none
  model : Option String := none
  isBuiltIn : Bool := false
deriving DecidableEq, Repr

/-- `isCommandAvailable` from `CommandAutocomplete.tsx` (lines 46–77): the
switch on `command.name` rendered as a sequential name comparison, exactly one
case per source `case` label. -/
def isCommandAvailable (st : SessionStoreState) (command : CommandInfo) : Bool :=
  if !command.isBuiltIn then true
  else
    let sessionMsgs := sessionMessages st
    let session := currentSession st
    if command.name = "init" then !hasMessagesInCurrentSession st
    else if command.name = "summarize" then hasMessagesInCurrentSession st
    else if command.name = "revert" ∨ command.name = "undo" then
      decide (1 < sessionMsgs.length)
    else if command.name = "unrevert" ∨ command.name = "redo" then
      revertTruthy session
    else if command.name = "abort" then
      currentActivityPhase st == some ActivityPhase.busy
    else if command.name = "edit" then
      decide (0 < sessionMsgs.length) && lastRoleIsUser sessionMsgs
    else if command.name = "clear" ∨ command.name = "compact" then
      decide (0 < sessionMsgs.length)
    else true

/-- The spec's Session-State Snapshot (§3): `messageCount`,
`lastMessageRole ∈ {none, user, assistant}`, `hasPendingRevert`,
`activityPhase ∈ {idle, busy}`. -/
structure SessionSnapshot where
  messageCount : Nat
  lastMessageRole : Option Role
  hasPendingRevert : Bool
  activityPhase : ActivityPhase
deriving DecidableEq, Repr

/-- Modelled from the spec: the Availability Predicate Evaluator table of
§4.1, written from the spec's words for comparison with the source's
`isCommandAvailable`. -/
def isAvailableSpec (snap : SessionSnapshot) (command : CommandInfo) : Bool :=
  if !command.isBuiltIn then true
  else if command.name = "init" then decide (snap.messageCount = 0)
  else if command.name = "summarize" then decide (0 < snap.messageCount)
  else if command.name = "revert" ∨ command.name = "undo" then
    decide (1 < snap.messageCount)
  else if command.name = "unrevert" ∨ command.name = "redo" then
    snap.hasPendingRevert
  else if command.name = "abort" then snap.activityPhase == ActivityPhase.busy
  else if command.name = "edit" then
    decide (0 < snap.messageCount) && (snap.lastMessageRole == some Role.user)
  else if command.name = "clear" ∨ command.name = "compact" then
    decide (0 < snap.messageCount)
  else true

/-- Abstraction of the store slice read by the gating logic into the spec's
snapshot. -/
def abstractSnapshot (st : SessionStoreState) : SessionSnapshot where
  messageCount := (sessionMessages st).length
  lastMessageRole := (sessionMessages st).getLast?.map (fun m => m.info.role)
  hasPendingRevert := revertTruthy (currentSession st)
  activityPhase :=
    if currentActivityPhase st == some ActivityPhase.busy then ActivityPhase.busy
    else ActivityPhase.idle

/-- `s.toLowerCase()` on the characters of a JS string. -/
def jsToLower (s : String) : List Char :=
  s.toList.map Char.toLower

/-- `s.includes(sub)` — substring containment. -/
def jsIncludes : List Char → List Char → Bool
  | [], sub => sub.isEmpty
  | c :: rest, sub => sub.isPrefixOf (c :: rest) || jsIncludes rest sub

/-- `s.startsWith(pre)`. -/
def jsStartsWith (s pre : List Char) : Bool :=
  pre.isPrefixOf s

/-- `a.localeCompare(b) ≤ 0`, modelled as lexicographic comparison of code
points. -/
def lexLe : List Char → List Char → Bool
  | [], _ => true
  | _ :: _, [] => false
  | a :: as, b :: bs =>
    if a.toNat < b.toNat then true
    else if b.toNat < a.toNat then false
    else lexLe as bs

/-- The `builtInCommands` array from `loadCommands` (identical in the success
and catch branches): `init` is included only when the session has no
messages. -/
def builtInCommands (st : SessionStoreState) : List CommandInfo :=
  (if hasMessagesInCurrentSession st then ([] : List CommandInfo)
   else [{ name := "init", description := some "Create/update AGENTS.md file", isBuiltIn := true }]) ++
  [ { name := "summarize", description := some "Generate a summary of the current session", isBuiltIn := true },
    { name := "revert", description := some "Revert session to previous state", isBuiltIn := true },
    { name := "unrevert", description := some "Undo revert operation", isBuiltIn := true },
    { name := "abort", description := some "Interrupt current operation", isBuiltIn := true },
    { name := "undo", description := some "Undo last action", isBuiltIn := true },
    { name := "redo", description := some "Redo last action", isBuiltIn := true },
    { name := "edit", description := some "Edit last message", isBuiltIn := true },
    { name := "clear", description := some "Clear current session", isBuiltIn := true },
    { name := "compact", description := some "Compact session history", isBuiltIn := true } ]

/-- A raw command from `opencodeClient.listCommands()`. -/
structure ApiCommand where
  name : String
  description : Option String := none
  agent : Option String := none
  model : Option String := none
deriving DecidableEq, Repr

/-- The `customCommands` mapping: `{ ...cmd, isBuiltIn: false }`. -/
def toCustom (c : ApiCommand) : CommandInfo :=
  { name := c.name, description := c.description, agent := c.agent,
    model := c.model, isBuiltIn := false }

/-- `commandMap.set(cmd.name, cmd)` on a JS `Map` kept as an insertion-ordered
association list keyed by `name`: an existing key keeps its position and gets
the new value, a new key is appended. -/
def mapSet (m : List CommandInfo) (cmd : CommandInfo) : List CommandInfo :=
  if m.any (fun e => e.name == cmd.name) then
    m.map (fun e => if e.name == cmd.name then cmd else e)
  else m ++ [cmd]

/-- The merge in `loadCommands`: built-ins are inserted first, then the custom
commands overwrite/insert; `Array.from(commandMap.values())` keeps insertion
order. -/
def commandMap (builtIns customs : List CommandInfo) : List CommandInfo :=
  (builtIns ++ customs).foldl mapSet []

/-- The query predicate of the filter step:
`cmd.name.toLowerCase().includes(q.toLowerCase()) || (cmd.description && ...)`. -/
def matchesQuery (q : String) (cmd : CommandInfo) : Bool :=
  jsIncludes (jsToLower cmd.name) (jsToLower q) ||
    (match cmd.description with
     | some d => jsIncludes (jsToLower d) (jsToLower q)
     | none => false)

/-- The three filter stages shared by the success and catch branches of
`loadCommands`: query filter (skipped for an empty — falsy — query), the
redundant `init` suppression, then the availability gate. -/
def filterPipeline (q : String) (st : SessionStoreState)
    (cmds : List CommandInfo) : List CommandInfo :=
  ((if q = "" then cmds else cmds.filter (matchesQuery q)).filter
      (fun c => !hasMessagesInCurrentSession st || c.name != "init")).filter
    (fun c => isCommandAvailable st c)

/-- `jsStartsWith (name.toLowerCase()) (query.toLowerCase())` for a command. -/
def startsQ (q : String) (c : CommandInfo) : Bool :=
  jsStartsWith (jsToLower c.name) (jsToLower q)

/-- Sort key of the comparator: prefix matches rank 0, the rest rank 1. -/
def rank (q : String) (c : CommandInfo) : Nat :=
  if startsQ q c then 0 else 1

/-- The comparator of `filtered.sort(...)` as a total preorder: prefix matches
first, ties broken by `a.name.localeCompare(b.name)`. -/
def cmdLe (q : String) (a b : CommandInfo) : Prop :=
  rank q a < rank q b ∨ (rank q a = rank q b ∧ lexLe a.name.toList b.name.toList = true)

instance (q : String) : DecidableRel (cmdLe q) := fun a b =>
  inferInstanceAs (Decidable (_ ∨ _))

/-- `filtered.sort(comparator)` modelled as a comparison sort with the source
comparator. -/
def sortCommands (q : String) (l : List CommandInfo) : List CommandInfo :=
  List.insertionSort (cmdLe q) l

/-- The success branch of `loadCommands`: merge, filter, sort. -/
def resolveVisibleCommands (api : List ApiCommand) (q : String)
    (st : SessionStoreState) : List CommandInfo :=
  sortCommands q (filterPipeline q st (commandMap (builtInCommands st) (api.map toCustom)))

/-- The catch branch of `loadCommands`: built-ins only, same filters, no
sort. -/
def fallbackVisibleCommands (q : String) (st : SessionStoreState) : List CommandInfo :=
  filterPipeline q st (builtInCommands st)

/-- `loadCommands` as a function of the outcome of
`opencodeClient.listCommands()`: a failed fetch takes the catch branch. -/
def loadCommands (fetched : Except String (List ApiCommand)) (q : String)
    (st : SessionStoreState) : List CommandInfo :=
  match fetched with
  | Except.ok api => resolveVisibleCommands api q st
  | Except.error _ => fallbackVisibleCommands q st

/-- Observable outcome of one `handleKeyDown` call: the selected-index state
afterwards, whether `onClose` fired, and the command passed to
`onCommandSelect` (if any). -/
structure KeyResult where
  newIndex : Int
  closed : Bool
  selected : Option CommandInfo
deriving DecidableEq, Repr

/-- JS `%` on integers: truncated remainder (sign of the dividend). -/
def jsRem (a n : Int) : Int :=
  Int.tmod a n

/-- `const safeIndex = ((selectedIndex % total) + total) % total`. -/
def safeIndexOf (selectedIndex total : Int) : Int :=
  jsRem (jsRem selectedIndex total + total) total

/-- `handleKeyDown` from the imperative handle (lines 207–237): `Escape`
closes before the empty-list guard; arrows wrap with `%`; `Enter`/`Tab`
re-normalize the index defensively and select; other keys do nothing. -/
def handleKeyDown (commands : List CommandInfo) (selectedIndex : Int)
    (key : String) : KeyResult :=
  let total : Int := commands.length
  if key = "Escape" then { newIndex := selectedIndex, closed := true, selected := none }
  else if total = 0 then { newIndex := selectedIndex, closed := false, selected := none }
  else if key = "ArrowDown" then
    { newIndex := jsRem (selectedIndex + 1) total, closed := false, selected := none }
  else if key = "ArrowUp" then
    { newIndex := jsRem (selectedIndex - 1 + total) total, closed := false, selected := none }
  else if key = "Enter" ∨ key = "Tab" then
    let safeIndex := safeIndexOf selectedIndex total
    match commands[safeIndex.toNat]? with
    | some c => { newIndex := selectedIndex, closed := false, selected := some c }
    | none => { newIndex := selectedIndex, closed := false, selected := none }
  else { newIndex := selectedIndex, closed := false, selected := none }

/-- A command-history entry as declared in the session store
(`summary.md`): `{ command: string; timestamp: number; success: boolean }` —
there is no error-message field. -/
structure HistoryEntry where
  command : String
  timestamp : Nat
  success : Bool
deriving DecidableEq, Repr

/-- `executeCommand` from the session store (`summary.md` lines 161–192),
reduced to its history-tracking shape: the routed backend call is abstracted
as its result.  With no active session it throws before the `try`, appending
nothing; otherwise it appends one `{command, timestamp, success}` entry and
rethrows any failure. -/
def executeCommand (currentSessionId : Option String) (commandName : String)
    (timestamp : Nat) (backendResult : Except String Unit)
    (history : List HistoryEntry) : List HistoryEntry × Except String Unit :=
  match currentSessionId with
  | none => (history, Except.error "No active session")
  | some _ =>
    match backendResult with
    | Except.ok _ => (history ++ [⟨commandName, timestamp, true⟩], Except.ok ())
    | Except.error e => (history ++ [⟨commandName, timestamp, false⟩], Except.error e)

/-- A sequence of execution attempts against one active session, threading the
history log. -/
def runAttempts (sid : String) (attempts : List (String × Nat × Except String Unit))
    (history : List HistoryEntry) : List HistoryEntry :=
  attempts.foldl
    (fun h a => (executeCommand (some sid) a.1 a.2.1 a.2.2 h).1) history

/-- The JSON body fields `handleApiError` reads: `errorData.message` and
`errorData.error`. -/
structure ErrorBody where
  message : Option String
  error : Option String
deriving DecidableEq, Repr

/-- JS `a || b` for an optional string `a`: absent and empty-string values are
falsy. -/
def jsOrString (a : Option String) (b : String) : String :=
  match a with
  | some s => if s = "" then b else s
  | none => b

/-- `errorData.message || errorData.error || "HTTP <status>"`. -/
def extractedErrorMessage (status : Nat) (b : ErrorBody) : String :=
  jsOrString b.message (jsOrString b.error ("HTTP " ++ toString status))

/-- `handleApiError` from `opencodeApi.ts` (lines 25–33), returning the
message of the error it throws.  The `try` block always throws — either
`response.json()` rejects, or the deliberately constructed
`new Error(errorMessage)` is raised inside the `try` — so the `catch` always
replaces the outcome with the fallback message. -/
def handleApiError (status : Nat) (statusText : String)
    (body : Option ErrorBody) : String :=
  let tryOutcome : Except String Empty :=
    match body with
    | none => Except.error "Unexpected end of JSON input"
    | some b => Except.error (extractedErrorMessage status b)
  match tryOutcome with
  | Except.error _ => "HTTP " ++ toString status ++ ": " ++ statusText
  | Except.ok e => e.elim

/-- The parts of a `fetch` `Response` the client reads; `body` is the parse
result of `response.json()` (`none` = invalid JSON). -/
structure HttpResponse where
  ok : Bool
  status : Nat
  statusText : String
  body : Option ErrorBody
deriving DecidableEq, Repr

/-- `opencodeApi.editMessage`, as a function of the response: a non-ok
response raises the message produced by `handleApiError`. -/
def editMessage (resp : HttpResponse) : Except String (Option ErrorBody) :=
  if resp.ok then Except.ok resp.body
  else Except.error (handleApiError resp.status resp.statusText resp.body)

/-- `opencodeApi.clearSession`, same error path as `editMessage`. -/
def clearSession (resp : HttpResponse) : Except String (Option ErrorBody) :=
  if resp.ok then Except.ok resp.body
  else Except.error (handleApiError resp.status resp.statusText resp.body)

/-- `opencodeApi.compactSession`, same error path as `editMessage`. -/
def compactSession (resp : HttpResponse) : Except String (Option ErrorBody) :=
  if resp.ok then Except.ok resp.body
  else Except.error (handleApiError resp.status resp.statusText resp.body)

/-- An assistant message. -/
def msgA : Message := ⟨⟨Role.assistant⟩⟩

/-- A user message. -/
def msgU : Message := ⟨⟨Role.user⟩⟩

/-- Store with no active session. -/
def stNull : SessionStoreState := ⟨none, [], [], []⟩

/-- Store with an active session holding two assistant messages, no pending
revert, idle. -/
def stTwoMsgs : SessionStoreState :=
  ⟨some "s1", [("s1", [msgA, msgA])], [], []⟩

/-- Store with two assistant messages and a pending revert point. -/
def stRevert : SessionStoreState :=
  ⟨some "s1", [("s1", [msgA, msgA])], [⟨"s1", some ⟨some "m1"⟩⟩], []⟩

/-- Store over session "a" with one user message. -/
def stUserA : SessionStoreState := ⟨some "a", [("a", [msgU])], [], []⟩

/-- Store over session "b" with one user message — a different store with the
same abstract snapshot as `stUserA`. -/
def stUserB : SessionStoreState := ⟨some "b", [("b", [msgU])], [], []⟩

/-- The ordering property claimed for the visible list: a later command never
prefix-matches the query when an earlier one merely contains it, and two
commands with the same prefix status are in lexicographic name order. -/
def claimOrder (q : String) (a b : CommandInfo) : Prop :=
  (startsQ q b = true → startsQ q a = true) ∧
  (startsQ q a = startsQ q b → lexLe a.name.toList b.name.toList = true)

instance (q : String) (a b : CommandInfo) : Decidable (claimOrder q a b) :=
  inferInstanceAs (Decidable (_ ∧ _))

/-- The names of a command list. -/
def namesOf (l : List CommandInfo) : List String :=
  l.map CommandInfo.name

/-- `Map.get(n)` on the merged catalog: the entry with name `n`, if any. -/
def findByName (l : List CommandInfo) (n : String) : Option CommandInfo :=
  l.find? (fun e => e.name == n)

end OpenChamber

namespace OpenChamber

theorem lexLe_total : ∀ a b : List Char, lexLe a b = true ∨ lexLe b a = true := by
  intro a
  induction a with
  | nil => intro b; left; rfl
  | cons x xs ih =>
    intro b
    cases b with
    | nil => right; rfl
    | cons y ys =>
      by_cases h1 : x.toNat < y.toNat
      · left; simp [lexLe, h1]
      · by_cases h2 : y.toNat < x.toNat
        · right; simp [lexLe, h2]
        · rcases ih ys with h | h
          · left; simp [lexLe, h1, h2, h]
          · right; simp [lexLe, h1, h2, h]

theorem lexLe_trans : ∀ a b c : List Char,
    lexLe a b = true → lexLe b c = true → lexLe a c = true := by
  intro a
  induction a with
  | nil => intro b c _ _; rfl
  | cons x xs ih =>
    intro b c hab hbc
    cases b with
    | nil => simp [lexLe] at hab
    | cons y ys =>
      cases c with
      | nil => simp [lexLe] at hbc
      | cons z zs =>
        simp only [lexLe] at hab hbc ⊢
        rcases Nat.lt_trichotomy x.toNat y.toNat with hxy | hxy | hxy
        · rcases Nat.lt_trichotomy y.toNat z.toNat with hyz | hyz | hyz
          · rw [if_pos (by omega)]
          · rw [if_pos (by omega)]
          · rw [if_neg (by omega), if_pos hyz] at hbc; cases hbc
        · rw [if_neg (by omega), if_neg (by omega)] at hab
          rcases Nat.lt_trichotomy y.toNat z.toNat with hyz | hyz | hyz
          · rw [if_pos (by omega)]
          · rw [if_neg (by omega), if_neg (by omega)] at hbc
            rw [if_neg (by omega), if_neg (by omega)]
            exact ih ys zs hab hbc
          · rw [if_neg (by omega), if_pos hyz] at hbc; cases hbc
        · rw [if_neg (by omega), if_pos hxy] at hab; cases hab

theorem startsQ_eq_of_rank_eq {q : String} {a b : CommandInfo}
    (h : rank q a = rank q b) : startsQ q a = startsQ q b := by
  unfold rank at h
  by_cases hA : startsQ q a <;> by_cases hB : startsQ q b <;>
    simp [hA, hB] at h ⊢

theorem rank_lt_elim {q : String} {a b : CommandInfo}
    (h : rank q a < rank q b) : startsQ q a = true ∧ startsQ q b = false := by
  unfold rank at h
  by_cases hA : startsQ q a <;> by_cases hB : startsQ q b <;>
    simp [hA, hB] at h ⊢

instance (q : String) : IsTotal CommandInfo (cmdLe q) where
  total a b := by
    rcases Nat.lt_trichotomy (rank q a) (rank q b) with h | h | h
    · exact Or.inl (Or.inl h)
    · rcases lexLe_total a.name.toList b.name.toList with hl | hl
      · exact Or.inl (Or.inr ⟨h, hl⟩)
      · exact Or.inr (Or.inr ⟨h.symm, hl⟩)
    · exact Or.inr (Or.inl h)

instance (q : String) : IsTrans CommandInfo (cmdLe q) where
  trans a b c hab hbc := by
    rcases hab with h1 | ⟨h1, l1⟩ <;> rcases hbc with h2 | ⟨h2, l2⟩
    · exact Or.inl (Nat.lt_trans h1 h2)
    · exact Or.inl (h2 ▸ h1)
    · exact Or.inl (h1 ▸ h2)
    · exact Or.inr ⟨h1.trans h2, lexLe_trans _ _ _ l1 l2⟩

theorem cmdLe_implies_claimOrder {q : String} {a b : CommandInfo}
    (h : cmdLe q a b) : claimOrder q a b := by
  rcases h with h | ⟨h, hl⟩
  · obtain ⟨ha, hb⟩ := rank_lt_elim h
    constructor
    · intro hb'
      rw [hb] at hb'
      cases hb'
    · intro heq
      rw [ha, hb] at heq
      cases heq
  · constructor
    · intro hb'
      exact (startsQ_eq_of_rank_eq h).trans hb'
    · intro _
      exact hl

theorem jsRem_lower (a n : Int) (hn : 0 < n) : -n < jsRem a n := by
  unfold jsRem
  cases a with
  | ofNat m =>
    have h0 : (0 : Int) ≤ Int.ofNat m := by simp
    have := Int.tmod_nonneg n h0
    omega
  | negSucc m =>
    obtain ⟨k, hk⟩ : ∃ k : Nat, n = Int.ofNat k := ⟨n.toNat, by simp; omega⟩
    subst hk
    simp only [Int.ofNat_eq_coe] at hn ⊢
    have hk0 : 0 < k := by exact_mod_cast hn
    have hred : Int.tmod (Int.negSucc m) ((k : Nat) : Int) = -(((m + 1) % k : Nat) : Int) := rfl
    have hlt : (m + 1) % k < k := Nat.mod_lt (m + 1) hk0
    rw [hred]
    omega

theorem jsRem_eq_emod (a n : Int) (ha : 0 ≤ a) (hn : 0 ≤ n) : jsRem a n = a % n :=
  Int.tmod_eq_emod ha hn

theorem safeIndexOf_eq_emod (a n : Int) (hn : 0 < n) : safeIndexOf a n = a % n := by
  have hlow := jsRem_lower a n hn
  have h0 : 0 ≤ jsRem a n + n := by omega
  unfold safeIndexOf
  rw [jsRem_eq_emod _ _ h0 (by omega)]
  unfold jsRem
  rw [Int.tmod_def]
  have harr : a - n * a.tdiv n + n = a + n * (1 - a.tdiv n) := by ring
  rw [harr, Int.add_mul_emod_self_left]

theorem hkd_escape (commands : List CommandInfo) (i : Int) :
    handleKeyDown commands i "Escape" = { newIndex := i, closed := true, selected := none } := by
  simp [handleKeyDown]

theorem hkd_empty (commands : List CommandInfo) (i : Int) (key : String)
    (hk : key ≠ "Escape") (h : commands.length = 0) :
    handleKeyDown commands i key = { newIndex := i, closed := false, selected := none } := by
  simp [handleKeyDown, hk, h]

theorem hkd_down (commands : List CommandInfo) (i : Int) (h : commands.length ≠ 0) :
    handleKeyDown commands i "ArrowDown" =
      { newIndex := jsRem (i + 1) commands.length, closed := false, selected := none } := by
  have h0 : ¬((commands.length : Int) = 0) := by simpa using h
  simp [handleKeyDown, h0]

theorem hkd_up (commands : List CommandInfo) (i : Int) (h : commands.length ≠ 0) :
    handleKeyDown commands i "ArrowUp" =
      { newIndex := jsRem (i - 1 + commands.length) commands.length, closed := false, selected := none } := by
  have h0 : ¬((commands.length : Int) = 0) := by simpa using h
  simp [handleKeyDown, h0]

theorem hkd_other (commands : List CommandInfo) (i : Int) (key : String)
    (h1 : key ≠ "Escape") (h2 : key ≠ "ArrowDown") (h3 : key ≠ "ArrowUp")
    (h4 : key ≠ "Enter") (h5 : key ≠ "Tab") :
    handleKeyDown commands i key = { newIndex := i, closed := false, selected := none } := by
  simp only [handleKeyDown]
  rw [if_neg h1]
  by_cases h0 : (commands.length : Int) = 0
  · rw [if_pos h0]
  · rw [if_neg h0, if_neg h2, if_neg h3, if_neg (not_or.mpr ⟨h4, h5⟩)]

/-- Claim C7: with a non-empty visible list and `selectedIndex ∈ [0, total)`, a
navigate-down key moves the selection to `(selectedIndex + 1) mod total` and a
navigate-up key to `(selectedIndex - 1 + total) mod total`, without closing or
selecting; with an empty list both keys are no-ops. -/
theorem navigation_wraps (commands : List CommandInfo) (i : Int) :
    (0 ≤ i → i < commands.length →
      handleKeyDown commands i "ArrowDown" =
        { newIndex := (i + 1) % (commands.length : Int), closed := false, selected := none } ∧
      handleKeyDown commands i "ArrowUp" =
        { newIndex := (i - 1 + commands.length) % (commands.length : Int), closed := false, selected := none }) ∧
    (commands.length = 0 →
      handleKeyDown commands i "ArrowDown" = { newIndex := i, closed := false, selected := none } ∧
      handleKeyDown commands i "ArrowUp" = { newIndex := i, closed := false, selected := none }) := by
  constructor
  · intro h0 h1
    have hne : commands.length ≠ 0 := by omega
    constructor
    · rw [hkd_down commands i hne, jsRem_eq_emod _ _ (by omega) (by omega)]
    · rw [hkd_up commands i hne, jsRem_eq_emod _ _ (by omega) (by omega)]
  · intro h
    exact ⟨hkd_empty commands i "ArrowDown" (by decide) h,
      hkd_empty commands i "ArrowUp" (by decide) h⟩

/-- Claim C7 witness: with three visible commands, navigate-down from index 2 wraps
to 0 and navigate-up from index 0 wraps to 2. -/
theorem navigation_wraps_witness :
    handleKeyDown [{ name := "a" }, { name := "b" }, { name := "c" }] 2 "ArrowDown" =
      { newIndex := 0, closed := false, selected := none } ∧
    handleKeyDown [{ name := "a" }, { name := "b" }, { name := "c" }] 0 "ArrowUp" =
      { newIndex := 2, closed := false, selected := none } := by
  have h1 := (navigation_wraps [{ name := "a" }, { name := "b" }, { name := "c" }] 2).1
    (by decide) (by decide)
  have h2 := (navigation_wraps [{ name := "a" }, { name := "b" }, { name := "c" }] 0).1
    (by decide) (by decide)
  exact ⟨h1.1.trans (by decide), h2.2.trans (by decide)⟩

/-- Claim C8: a confirm key with an empty visible list is a no-op (and, as a total
function, cannot throw); with a non-empty list it emits exactly the command at
`safeIndex = ((selectedIndex % total) + total) % total`, an always-in-range
index equal to the mathematical `selectedIndex mod total`, and changes nothing
else. -/
theorem confirm_emits_safe_index (commands : List CommandInfo) (i : Int) :
    (commands.length = 0 →
      handleKeyDown commands i "Enter" = { newIndex := i, closed := false, selected := none } ∧
      handleKeyDown commands i "Tab" = { newIndex := i, closed := false, selected := none }) ∧
    (0 < commands.length →
      0 ≤ safeIndexOf i commands.length ∧
      safeIndexOf i commands.length < commands.length ∧
      safeIndexOf i commands.length = i % (commands.length : Int) ∧
      (commands[(safeIndexOf i commands.length).toNat]?).isSome = true ∧
      handleKeyDown commands i "Enter" =
        { newIndex := i, closed := false,
          selected := commands[(safeIndexOf i commands.length).toNat]? }) := by
  constructor
  · intro h
    exact ⟨hkd_empty commands i "Enter" (by decide) h,
      hkd_empty commands i "Tab" (by decide) h⟩
  · intro h
    have hpos : (0 : Int) < (commands.length : Int) := by exact_mod_cast h
    have hsafe : safeIndexOf i commands.length = i % (commands.length : Int) :=
      safeIndexOf_eq_emod i _ hpos
    have h0 : 0 ≤ safeIndexOf i commands.length := by
      rw [hsafe]; exact Int.emod_nonneg i (by omega)
    have hlt : safeIndexOf i commands.length < commands.length := by
      rw [hsafe]; exact Int.emod_lt_of_pos i hpos
    have hnat : (safeIndexOf i commands.length).toNat < commands.length := by omega
    have hsome : (commands[(safeIndexOf i commands.length).toNat]?).isSome = true := by
      rw [List.getElem?_eq_getElem hnat]
      rfl
    refine ⟨h0, hlt, hsafe, hsome, ?_⟩
    have hne : ¬((commands.length : Int) = 0) := by omega
    simp only [handleKeyDown]
    rw [List.getElem?_eq_getElem hnat]
    simp [hne]

/-- Claim C8 witness: with three commands and a stale index 5, confirm emits the
command at the re-normalized index 2 and the empty-list case is a no-op. -/
theorem confirm_emits_safe_index_witness :
    handleKeyDown [{ name := "a" }, { name := "b" }, { name := "c" }] 5 "Enter" =
      { newIndex := 5, closed := false, selected := some { name := "c" } } ∧
    handleKeyDown [] 0 "Enter" = { newIndex := 0, closed := false, selected := none } := by
  have h1 := (confirm_emits_safe_index [{ name := "a" }, { name := "b" }, { name := "c" }] 5).2
    (by decide)
  have h2 := (confirm_emits_safe_index [] 0).1 (by decide)
  exact ⟨h1.2.2.2.2.trans (by decide), h2.1⟩

/-- Claim C9: the dismiss key closes in every state, including an empty visible
list, because it is handled before the empty-list guard; any key other than
Escape, ArrowDown, ArrowUp, Enter, or Tab changes nothing and emits no
signal. -/
theorem escape_closes_other_keys_noop (commands : List CommandInfo) (i : Int) (key : String) :
    handleKeyDown commands i "Escape" = { newIndex := i, closed := true, selected := none } ∧
    (key ≠ "Escape" → key ≠ "ArrowDown" → key ≠ "ArrowUp" → key ≠ "Enter" → key ≠ "Tab" →
      handleKeyDown commands i key = { newIndex := i, closed := false, selected := none }) := by
  exact ⟨hkd_escape commands i, fun h1 h2 h3 h4 h5 => hkd_other commands i key h1 h2 h3 h4 h5⟩

/-- Claim C9 witness: Escape closes on an empty list, and the key "x" is inert. -/
theorem escape_closes_other_keys_noop_witness :
    handleKeyDown [] 0 "Escape" = { newIndex := 0, closed := true, selected := none } ∧
    handleKeyDown [] 0 "x" = { newIndex := 0, closed := false, selected := none } := by
  exact ⟨(escape_closes_other_keys_noop [] 0 "x").1,
    (escape_closes_other_keys_noop [] 0 "x").2 (by decide) (by decide) (by decide)
      (by decide) (by decide)⟩

/-- Claim C2 (code bug): for a failed response whose JSON body carries
`message = "Session not found"`, all three operations raise
"HTTP 404: Not Found" — the fallback — instead of the extracted message,
because `handleApiError` throws the extracted message inside its own `try`
and the `catch` replaces it with the fallback unconditionally. -/
theorem api_error_message_swallowed :
    editMessage ⟨false, 404, "Not Found", some ⟨some "Session not found", none⟩⟩ =
      Except.error "HTTP 404: Not Found" ∧
    clearSession ⟨false, 404, "Not Found", some ⟨some "Session not found", none⟩⟩ =
      Except.error "HTTP 404: Not Found" ∧
    compactSession ⟨false, 404, "Not Found", some ⟨some "Session not found", none⟩⟩ =
      Except.error "HTTP 404: Not Found" ∧
    extractedErrorMessage 404 ⟨some "Session not found", none⟩ = "Session not found" ∧
    "HTTP 404: Not Found" ≠ "Session not found" ∧
    (∀ status statusText body, handleApiError status statusText body =
      "HTTP " ++ toString status ++ ": " ++ statusText) := by
  refine ⟨rfl, rfl, rfl, rfl, by decide, ?_⟩
  intro status statusText body
  unfold handleApiError
  cases body <;> rfl

theorem executeCommand_fst (sid : String) (name : String) (t : Nat)
    (r : Except String Unit) (hist : List HistoryEntry) :
    (executeCommand (some sid) name t r hist).1 = hist ++ [⟨name, t, r.isOk⟩] := by
  cases r <;> rfl

theorem runAttempts_append (sid : String)
    (attempts : List (String × Nat × Except String Unit)) :
    ∀ h : List HistoryEntry, runAttempts sid attempts h = h ++ runAttempts sid attempts [] := by
  induction attempts with
  | nil => intro h; simp [runAttempts]
  | cons a as ih =>
    intro h
    show runAttempts sid as ((executeCommand (some sid) a.1 a.2.1 a.2.2 h).1) =
      h ++ runAttempts sid as ((executeCommand (some sid) a.1 a.2.1 a.2.2 []).1)
    rw [executeCommand_fst, executeCommand_fst]
    conv_rhs => rw [ih]
    rw [ih]
    simp

/-- Claim C6 (amended): with an active session every execution attempt appends
exactly one `{command, timestamp, success}` entry — N attempts yield N
entries, and an existing log is only ever extended, never altered — and on
failure the entry records `success = false` while the error itself is
rethrown to the caller rather than stored in the entry. -/
theorem history_append_exactly_one (sid : String)
    (attempts : List (String × Nat × Except String Unit)) (h : List HistoryEntry) :
    (runAttempts sid attempts []).length = attempts.length ∧
    runAttempts sid attempts h = h ++ runAttempts sid attempts [] ∧
    (∀ name t e hist, executeCommand (some sid) name t (Except.error e) hist =
      (hist ++ [⟨name, t, false⟩], Except.error e)) ∧
    (∀ name t hist, executeCommand (some sid) name t (Except.ok ()) hist =
      (hist ++ [⟨name, t, true⟩], Except.ok ())) := by
  refine ⟨?_, runAttempts_append sid attempts h, fun _ _ _ _ => rfl, fun _ _ _ => rfl⟩
  induction attempts with
  | nil => rfl
  | cons a as ih =>
    show (runAttempts sid as ((executeCommand (some sid) a.1 a.2.1 a.2.2 []).1)).length = as.length + 1
    rw [executeCommand_fst, runAttempts_append]
    simp [ih]

/-- Claim C6 counterexample: two failures with different error messages produce
identical history entries — the entry carries no error message at all — and
an attempt with no active session appends no entry. -/
theorem history_entry_lacks_error_message :
    (executeCommand (some "s1") "clear" 7 (Except.error "boom") []).1 =
      (executeCommand (some "s1") "clear" 7 (Except.error "another message") []).1 ∧
    "boom" ≠ "another message" ∧
    (executeCommand none "clear" 7 (Except.error "boom") []).1 = [] := by
  exact ⟨rfl, by decide, rfl⟩

theorem selectorMessageCount_eq (st : SessionStoreState) :
    selectorMessageCount st = (sessionMessages st).length := by
  cases h : st.currentSessionId with
  | none => simp [selectorMessageCount, sessionMessages, h]
  | some sid =>
    cases hm : mapGet st.messages sid <;>
      simp [selectorMessageCount, sessionMessages, h, hm]

theorem hasMessages_eq (st : SessionStoreState) :
    hasMessagesInCurrentSession st = decide (0 < (sessionMessages st).length) := by
  unfold hasMessagesInCurrentSession
  rw [selectorMessageCount_eq]

theorem not_pos_decide (n : Nat) : (!decide (0 < n)) = decide (n = 0) := by
  cases n <;> simp

theorem lastRoleIsUser_eq (msgs : List Message) :
    lastRoleIsUser msgs =
      (msgs.getLast?.map (fun m => m.info.role) == some Role.user) := by
  unfold lastRoleIsUser
  cases msgs.getLast? <;> rfl

theorem isCommandAvailable_eq_spec (st : SessionStoreState) (cmd : CommandInfo) :
    isCommandAvailable st cmd = isAvailableSpec (abstractSnapshot st) cmd := by
  cases hb : cmd.isBuiltIn with
  | false => simp [isCommandAvailable, isAvailableSpec, hb]
  | true =>
    simp only [isCommandAvailable, isAvailableSpec, hb, Bool.not_true, Bool.false_eq_true,
      if_false]
    split_ifs with h1 h2 h3 h4 h5 h6 h7
    · rw [hasMessages_eq, not_pos_decide]
      rfl
    · rw [hasMessages_eq]
      rfl
    · rfl
    · rfl
    · cases h : currentActivityPhase st == some ActivityPhase.busy <;>
        simp [abstractSnapshot, h]
    · rw [lastRoleIsUser_eq]
      rfl
    · rfl
    · rfl

/-- Claim C1: for every command and store state, the source's availability check
agrees with the spec's name→predicate table evaluated on the abstracted
session snapshot (non-built-ins always available; `init` iff no messages;
`summarize`, `clear`, `compact` iff some message; `revert`/`undo` iff more
than one; `unrevert`/`redo` iff a pending revert; `abort` iff busy; `edit`
iff some message and the last is the user's; unknown built-ins available) —
and it is a pure function of that snapshot: states with equal snapshots gate
identically. -/
theorem availability_matches_table :
    (∀ st cmd, isCommandAvailable st cmd = isAvailableSpec (abstractSnapshot st) cmd) ∧
    (∀ st st' cmd, abstractSnapshot st = abstractSnapshot st' →
      isCommandAvailable st cmd = isCommandAvailable st' cmd) := by
  refine ⟨isCommandAvailable_eq_spec, fun st st' cmd h => ?_⟩
  rw [isCommandAvailable_eq_spec, isCommandAvailable_eq_spec, h]

/-- Claim C1 witness: the table instance at a concrete store, and snapshot-purity
across two different stores with equal snapshots. -/
theorem availability_matches_table_witness :
    isCommandAvailable stUserA { name := "edit", isBuiltIn := true } =
      isAvailableSpec (abstractSnapshot stUserA) { name := "edit", isBuiltIn := true } ∧
    isCommandAvailable stUserA { name := "edit", isBuiltIn := true } =
      isCommandAvailable stUserB { name := "edit", isBuiltIn := true } :=
  ⟨availability_matches_table.1 stUserA { name := "edit", isBuiltIn := true },
    availability_matches_table.2 stUserA stUserB { name := "edit", isBuiltIn := true }
      (by decide)⟩

theorem mapGet_eq_none_of_keys {β : Type} (m : List (String × β))
    (h : ∀ p ∈ m, p.1 ≠ "") : mapGet m "" = none := by
  have hf : m.find? (fun p => p.1 == "") = none :=
    List.find?_eq_none.mpr (fun p hp => by simpa using h p hp)
  unfold mapGet
  rw [hf]
  rfl

theorem null_session_facts (st : SessionStoreState)
    (hnull : st.currentSessionId = none)
    (hkeys : ∀ p ∈ st.sessionActivityPhase, p.1 ≠ "") :
    sessionMessages st = [] ∧ currentSession st = none ∧
      currentActivityPhase st = none ∧ hasMessagesInCurrentSession st = false := by
  have hmsgs : sessionMessages st = [] := by
    unfold sessionMessages
    rw [hnull]
  have hsess : currentSession st = none := by
    unfold currentSession
    rw [hnull]
  have hphase : currentActivityPhase st = none := by
    unfold currentActivityPhase
    rw [hnull]
    exact mapGet_eq_none_of_keys _ hkeys
  have hhas : hasMessagesInCurrentSession st = false := by
    rw [hasMessages_eq, hmsgs]
    rfl
  exact ⟨hmsgs, hsess, hphase, hhas⟩

theorem null_session_gated_unavailable (st : SessionStoreState)
    (hnull : st.currentSessionId = none)
    (hkeys : ∀ p ∈ st.sessionActivityPhase, p.1 ≠ "") :
    ∀ c : CommandInfo, c.isBuiltIn = true →
      c.name = "summarize" ∨ c.name = "revert" ∨ c.name = "undo" ∨ c.name = "unrevert" ∨
        c.name = "redo" ∨ c.name = "abort" ∨ c.name = "edit" ∨ c.name = "clear" ∨
        c.name = "compact" →
      isCommandAvailable st c = false := by
  obtain ⟨hmsgs, hsess, hphase, hhas⟩ := null_session_facts st hnull hkeys
  intro c hb hn
  rcases hn with h | h | h | h | h | h | h | h | h <;>
    simp [isCommandAvailable, hb, h, hmsgs, hsess, hphase, hhas, revertTruthy,
      lastRoleIsUser]

/-- Claim C10: with no active session, availability evaluation totals out to the
zero-message, no-revert, non-busy defaults: `init` is available while all
other state-gated built-ins are hidden, and both the fallback and the
successful (empty dynamic catalog) visible lists for an empty query consist
of `init` alone.  The activity-phase map is assumed to be keyed by (non-empty)
session ids. -/
theorem null_session_only_init (st : SessionStoreState)
    (hnull : st.currentSessionId = none)
    (hkeys : ∀ p ∈ st.sessionActivityPhase, p.1 ≠ "") :
    (∀ c : CommandInfo, c.isBuiltIn = true → c.name = "init" →
      isCommandAvailable st c = true) ∧
    (∀ c : CommandInfo, c.isBuiltIn = true →
      c.name = "summarize" ∨ c.name = "revert" ∨ c.name = "undo" ∨ c.name = "unrevert" ∨
        c.name = "redo" ∨ c.name = "abort" ∨ c.name = "edit" ∨ c.name = "clear" ∨
        c.name = "compact" →
      isCommandAvailable st c = false) ∧
    (fallbackVisibleCommands "" st).map CommandInfo.name = ["init"] ∧
    (resolveVisibleCommands [] "" st).map CommandInfo.name = ["init"] := by
  obtain ⟨hmsgs, hsess, hphase, hhas⟩ := null_session_facts st hnull hkeys
  have hgated := null_session_gated_unavailable st hnull hkeys
  have hinit : ∀ c : CommandInfo, c.isBuiltIn = true → c.name = "init" →
      isCommandAvailable st c = true := by
    intro c hb h
    simp [isCommandAvailable, hb, h, hhas]
  have hbuilt : builtInCommands st =
      { name := "init", description := some "Create/update AGENTS.md file", isBuiltIn := true } ::
      [ { name := "summarize", description := some "Generate a summary of the current session", isBuiltIn := true },
        { name := "revert", description := some "Revert session to previous state", isBuiltIn := true },
        { name := "unrevert", description := some "Undo revert operation", isBuiltIn := true },
        { name := "abort", description := some "Interrupt current operation", isBuiltIn := true },
        { name := "undo", description := some "Undo last action", isBuiltIn := true },
        { name := "redo", description := some "Redo last action", isBuiltIn := true },
        { name := "edit", description := some "Edit last message", isBuiltIn := true },
        { name := "clear", description := some "Clear current session", isBuiltIn := true },
        { name := "compact", description := some "Compact session history", isBuiltIn := true } ] := by
    simp [builtInCommands, hhas]
  have havail : ∀ c ∈ builtInCommands st,
      (fun c : CommandInfo => isCommandAvailable st c) c =
        (fun c : CommandInfo => decide (c.name = "init")) c := by
    intro c hc
    rw [hbuilt] at hc
    fin_cases hc <;>
      first
        | (show isCommandAvailable st _ = _; rw [hinit _ rfl rfl]; rfl)
        | (show isCommandAvailable st _ = _; rw [hgated _ rfl (by simp)]; rfl)
  have hstep : List.filter (fun c : CommandInfo => !false || c.name != "init")
      (builtInCommands st) = builtInCommands st :=
    List.filter_eq_self.mpr (fun c _ => by simp)
  have hpipe : filterPipeline "" st (builtInCommands st) =
      (builtInCommands st).filter (fun c => decide (c.name = "init")) := by
    unfold filterPipeline
    rw [if_pos rfl, hhas, hstep, List.filter_congr havail]
  have hresult : (builtInCommands st).filter (fun c => decide (c.name = "init")) =
      [{ name := "init", description := some "Create/update AGENTS.md file", isBuiltIn := true }] := by
    rw [hbuilt]
    decide
  refine ⟨hinit, hgated, ?_, ?_⟩
  · unfold fallbackVisibleCommands
    rw [hpipe, hresult]
    rfl
  · unfold resolveVisibleCommands
    have hmerge : commandMap (builtInCommands st) (([] : List ApiCommand).map toCustom) =
        builtInCommands st := by
      rw [hbuilt]
      decide
    rw [hmerge, hpipe, hresult]
    decide

/-- Claim C10 witness: the empty store with no active session. -/
theorem null_session_only_init_witness :
    isCommandAvailable stNull { name := "init", isBuiltIn := true } = true ∧
    isCommandAvailable stNull { name := "summarize", isBuiltIn := true } = false ∧
    (fallbackVisibleCommands "" stNull).map CommandInfo.name = ["init"] ∧
    (resolveVisibleCommands [] "" stNull).map CommandInfo.name = ["init"] := by
  have h := null_session_only_init stNull rfl (by simp [stNull])
  exact ⟨h.1 { name := "init", isBuiltIn := true } rfl rfl,
    h.2.1 { name := "summarize", isBuiltIn := true } rfl (Or.inl rfl),
    h.2.2.1, h.2.2.2⟩

/-- Claim C3 (amended): on runs where the dynamic-catalog fetch succeeds, the
visible list is sorted with every prefix match of the query before every mere
substring match and lexicographic names within equal prefix status; and the
concrete tie-break instance — query "re" with revert, redo and summarize all
available — puts redo then revert ahead of summarize.  (Fallback runs skip
the sort; see the counterexample.) -/
theorem success_list_sorted :
    (∀ api q st, (loadCommands (Except.ok api) q st).Pairwise (claimOrder q)) ∧
    (resolveVisibleCommands [] "re" stRevert).map CommandInfo.name =
      ["redo", "revert", "clear", "summarize", "unrevert"] := by
  constructor
  · intro api q st
    unfold loadCommands resolveVisibleCommands sortCommands
    exact List.Pairwise.imp (fun hab => cmdLe_implies_claimOrder hab)
      (List.sorted_insertionSort (cmdLe q) _)
  · decide

/-- Claim C3 counterexample: on a fallback run (fetch failed) with query "re" over
a session with two messages, the code returns the built-ins in declaration
order — summarize (a substring match via its description) precedes the prefix
match revert — violating the claimed ordering. -/
theorem fallback_list_not_sorted :
    ¬ (loadCommands (Except.error "network error") "re" stTwoMsgs).Pairwise
      (claimOrder "re") := by
  decide

/-- Claim C5 counterexample: with the fetch failed and the non-matching query
"zzz", the visible list is empty even though the built-in summarize is
available in the session — the fallback list is neither non-empty nor a
superset of the available built-ins for every query. -/
theorem fallback_can_be_empty :
    loadCommands (Except.error "network error") "zzz" stTwoMsgs = [] ∧
    isCommandAvailable stTwoMsgs
      { name := "summarize", description := some "Generate a summary of the current session",
        isBuiltIn := true } = true ∧
    ({ name := "summarize", description := some "Generate a summary of the current session",
        isBuiltIn := true } : CommandInfo) ∈ builtInCommands stTwoMsgs := by
  exact ⟨by decide, by decide, by decide⟩

theorem builtins_name_ne_init (st : SessionStoreState)
    (hh : hasMessagesInCurrentSession st = true) :
    ∀ c ∈ builtInCommands st, c.name ≠ "init" := by
  intro c hc
  unfold builtInCommands at hc
  rw [hh] at hc
  simp at hc
  rcases hc with rfl | rfl | rfl | rfl | rfl | rfl | rfl | rfl | rfl <;> decide

/-- Claim C5 (amended): when the dynamic-catalog fetch fails, the merger totals out
to the filtered-and-gated built-ins — no error escapes — and every visible
command is an available built-in; with an empty query the result is exactly
the available built-ins and is non-empty.  (A non-matching query can still
empty the list; see the counterexample.) -/
theorem fallback_returns_gated_builtins (msg : String) (q : String)
    (st : SessionStoreState) :
    loadCommands (Except.error msg) q st = fallbackVisibleCommands q st ∧
    (∀ c ∈ fallbackVisibleCommands q st,
      c ∈ builtInCommands st ∧ isCommandAvailable st c = true) ∧
    fallbackVisibleCommands "" st =
      (builtInCommands st).filter (fun c => isCommandAvailable st c) ∧
    0 < (fallbackVisibleCommands "" st).length := by
  have hstep : ∀ cmds : List CommandInfo, (∀ c ∈ cmds, c ∈ builtInCommands st) →
      cmds.filter (fun c => !hasMessagesInCurrentSession st || c.name != "init") = cmds := by
    intro cmds hsub
    apply List.filter_eq_self.mpr
    intro c hc
    cases hh : hasMessagesInCurrentSession st
    · simp
    · have := builtins_name_ne_init st hh c (hsub c hc)
      simp [this]
  refine ⟨rfl, ?_, ?_, ?_⟩
  · intro c hc
    unfold fallbackVisibleCommands filterPipeline at hc
    have h1 := List.mem_filter.mp hc
    have h2 := List.mem_filter.mp h1.1
    refine ⟨?_, by simpa using h1.2⟩
    by_cases hq : q = ""
    · rw [if_pos hq] at h2
      exact h2.1
    · rw [if_neg hq] at h2
      exact (List.mem_filter.mp h2.1).1
  · unfold fallbackVisibleCommands filterPipeline
    rw [if_pos rfl, hstep (builtInCommands st) (fun c hc => hc)]
  · unfold fallbackVisibleCommands filterPipeline
    rw [if_pos rfl, hstep (builtInCommands st) (fun c hc => hc)]
    cases hh : hasMessagesInCurrentSession st
    · apply List.length_pos_of_mem (a :=
        { name := "init", description := some "Create/update AGENTS.md file", isBuiltIn := true })
      apply List.mem_filter.mpr
      constructor
      · unfold builtInCommands
        rw [hh]
        simp
      · simp [isCommandAvailable, hh]
    · apply List.length_pos_of_mem (a :=
        { name := "summarize", description := some "Generate a summary of the current session", isBuiltIn := true })
      apply List.mem_filter.mpr
      constructor
      · unfold builtInCommands
        rw [hh]
        simp
      · simp [isCommandAvailable, hh]

/-- Claim C5 witness: a concrete fallback run with an empty query over a two-message
session keeps summarize (an available built-in) and is non-empty. -/
theorem fallback_returns_gated_builtins_witness :
    loadCommands (Except.error "network down") "" stTwoMsgs =
      fallbackVisibleCommands "" stTwoMsgs ∧
    (({ name := "summarize", description := some "Generate a summary of the current session",
        isBuiltIn := true } : CommandInfo) ∈ builtInCommands stTwoMsgs ∧
      isCommandAvailable stTwoMsgs
        { name := "summarize", description := some "Generate a summary of the current session",
          isBuiltIn := true } = true) ∧
    0 < (fallbackVisibleCommands "" stTwoMsgs).length := by
  have h := fallback_returns_gated_builtins "network down" "" stTwoMsgs
  exact ⟨h.1, h.2.1 _ (by decide), h.2.2.2⟩

theorem findByName_cons (e : CommandInfo) (l : List CommandInfo) (n : String) :
    findByName (e :: l) n = if e.name == n then some e else findByName l n := by
  unfold findByName
  rw [List.find?_cons]
  cases h : (e.name == n) <;> simp [h]

theorem namesOf_mapSet (m : List CommandInfo) (cmd : CommandInfo) :
    namesOf (mapSet m cmd) =
      if m.any (fun e => e.name == cmd.name) then namesOf m
      else namesOf m ++ [cmd.name] := by
  unfold mapSet namesOf
  split_ifs with h
  · rw [List.map_map]
    apply List.map_congr_left
    intro e he
    by_cases hx : e.name = cmd.name
    · simp [Function.comp, hx]
    · simp [Function.comp, hx]
  · simp

theorem nodupNames_mapSet (m : List CommandInfo) (cmd : CommandInfo)
    (h : (namesOf m).Nodup) : (namesOf (mapSet m cmd)).Nodup := by
  rw [namesOf_mapSet]
  split_ifs with hany
  · exact h
  · have hnm : cmd.name ∉ namesOf m := by
      intro hmem
      apply hany
      rw [List.any_eq_true]
      obtain ⟨e, he, hen⟩ := List.mem_map.mp hmem
      exact ⟨e, he, by simp [hen]⟩
    rw [List.nodup_append]
    refine ⟨h, List.nodup_singleton _, ?_⟩
    intro a ha hb
    have : a = cmd.name := by simpa using hb
    exact hnm (this ▸ ha)

theorem nodupNames_foldl (l : List CommandInfo) :
    ∀ m : List CommandInfo, (namesOf m).Nodup → (namesOf (l.foldl mapSet m)).Nodup := by
  induction l with
  | nil => intro m hm; exact hm
  | cons c l ih => intro m hm; exact ih (mapSet m c) (nodupNames_mapSet m c hm)

theorem mapSet_cons_ne (e : CommandInfo) (m : List CommandInfo) (cmd : CommandInfo)
    (h : e.name ≠ cmd.name) : mapSet (e :: m) cmd = e :: mapSet m cmd := by
  have hbe : (e.name == cmd.name) = false := by simpa using h
  unfold mapSet
  by_cases hany : m.any (fun x => x.name == cmd.name)
  · rw [if_pos (by simp [List.any_cons, hbe, hany]), if_pos hany]
    simp only [List.map_cons]
    rw [if_neg (by simp [hbe])]
  · rw [if_neg (by simp [List.any_cons, hbe, hany]), if_neg hany]
    simp

theorem findByName_mapSet (m : List CommandInfo) (cmd : CommandInfo)
    (hm : (namesOf m).Nodup) (n : String) :
    findByName (mapSet m cmd) n = if cmd.name = n then some cmd else findByName m n := by
  induction m with
  | nil =>
    unfold mapSet findByName
    by_cases h : cmd.name = n <;> simp [h]
  | cons e m ih =>
    have hcons : namesOf (e :: m) = e.name :: namesOf m := rfl
    rw [hcons] at hm
    have hm' : (namesOf m).Nodup := (List.nodup_cons.mp hm).2
    by_cases he : e.name = cmd.name
    · have henm : e.name ∉ namesOf m := (List.nodup_cons.mp hm).1
      have hms : mapSet (e :: m) cmd = cmd :: m := by
        unfold mapSet
        rw [if_pos (by simp [List.any_cons, he])]
        rw [List.map_cons, if_pos (by simp [he])]
        congr 1
        have hfix : ∀ x ∈ m, (if x.name == cmd.name then cmd else x) = id x := by
          intro x hx
          rw [if_neg]
          · rfl
          · simp only [beq_iff_eq]
            intro hxn
            have h1 : x.name ∈ namesOf m := List.mem_map_of_mem CommandInfo.name hx
            rw [hxn, ← he] at h1
            exact henm h1
        rw [List.map_congr_left hfix, List.map_id]
      rw [hms, findByName_cons]
      by_cases hn : cmd.name = n
      · simp [hn]
      · have hen : (e.name == n) = false := by
          simp only [beq_eq_false_iff_ne]
          intro hh
          exact hn (by rw [← he]; exact hh)
        simp [hn, hen, findByName_cons]
    · rw [mapSet_cons_ne e m cmd he, findByName_cons, ih hm', findByName_cons]
      by_cases hn : cmd.name = n
      · have hen : (e.name == n) = false := by
          simp only [beq_eq_false_iff_ne]
          intro hh
          exact he (by rw [hh, hn])
        simp [hn, hen]
      · by_cases hen : (e.name == n) = true <;> simp [hn, hen]

theorem findByName_foldl (l : List CommandInfo) :
    ∀ m : List CommandInfo, (namesOf m).Nodup → ∀ n : String,
      findByName (l.foldl mapSet m) n =
        (l.reverse.find? (fun e => e.name == n)).or (findByName m n) := by
  induction l with
  | nil =>
    intro m hm n
    simp [findByName]
  | cons c l ih =>
    intro m hm n
    show findByName (l.foldl mapSet (mapSet m c)) n = _
    rw [ih (mapSet m c) (nodupNames_mapSet m c hm) n, findByName_mapSet m c hm n]
    rw [List.reverse_cons, List.find?_append]
    cases hfind : l.reverse.find? (fun e => e.name == n) with
    | none =>
      simp only [Option.none_or]
      by_cases hn : c.name = n
      · simp [hn]
      · have hcn : (c.name == n) = false := by simpa using hn
        rw [if_neg hn]
        simp [List.find?, hcn]
    | some v => simp

theorem find?_eq_some_of_unique {α : Type} {p : α → Bool} {x : α} {l : List α}
    (hx : x ∈ l) (hpx : p x = true) (huniq : ∀ y ∈ l, p y = true → y = x) :
    l.find? p = some x := by
  induction l with
  | nil => cases hx
  | cons a l ih =>
    by_cases ha : p a = true
    · rw [List.find?_cons_of_pos _ ha, huniq a (List.mem_cons_self a l) ha]
    · rw [List.find?_cons_of_neg _ (by simpa using ha)]
      rcases List.mem_cons.mp hx with rfl | hx'
      · exact absurd hpx ha
      · exact ih hx' (fun y hy hpy => huniq y (List.mem_cons_of_mem a hy) hpy)

theorem filter_eq_singleton_of_find (n : String) (x : CommandInfo) :
    ∀ l : List CommandInfo, (namesOf l).Nodup → findByName l n = some x →
      l.filter (fun e => e.name == n) = [x] := by
  intro l
  induction l with
  | nil =>
    intro _ h
    simp [findByName] at h
  | cons a l ih =>
    intro hnd hfind
    have hcons : namesOf (a :: l) = a.name :: namesOf l := rfl
    rw [hcons] at hnd
    have hnd' : (namesOf l).Nodup := (List.nodup_cons.mp hnd).2
    have hanm : a.name ∉ namesOf l := (List.nodup_cons.mp hnd).1
    rw [findByName_cons] at hfind
    by_cases ha : (a.name == n) = true
    · rw [if_pos ha] at hfind
      have hax : a = x := by injection hfind
      subst hax
      rw [List.filter_cons, if_pos ha]
      have hnil : l.filter (fun e => e.name == n) = [] := by
        rw [List.filter_eq_nil_iff]
        intro y hy hpy
        apply hanm
        have h1 : y.name = n := by simpa using hpy
        have h2 : a.name = n := by simpa using ha
        rw [h2, ← h1]
        exact List.mem_map_of_mem CommandInfo.name hy
      rw [hnil]
    · rw [if_neg ha] at hfind
      rw [List.filter_cons, if_neg ha, ih hnd' hfind]

theorem merge_names_nodup (builtIns customs : List CommandInfo) :
    (namesOf (commandMap builtIns customs)).Nodup := by
  unfold commandMap
  exact nodupNames_foldl _ [] (by simp [namesOf])

/-- Claim C4: the merged catalog has unique names, and whenever a dynamic command
shares its name with a built-in, the single surviving entry of that name is
the dynamic command's (description, agent and model carried over) with
`isBuiltIn = false`. -/
theorem merge_dedup_dynamic_wins (builtIns : List CommandInfo) (api : List ApiCommand)
    (c : ApiCommand) (ha : (api.map ApiCommand.name).Nodup) (hc : c ∈ api)
    (hcoll : ∃ b ∈ builtIns, b.name = c.name) :
    (namesOf (commandMap builtIns (api.map toCustom))).Nodup ∧
    (commandMap builtIns (api.map toCustom)).filter (fun e => e.name == c.name) =
      [toCustom c] ∧
    (toCustom c).isBuiltIn = false := by
  refine ⟨merge_names_nodup _ _, ?_, rfl⟩
  apply filter_eq_singleton_of_find c.name (toCustom c) _ (merge_names_nodup _ _)
  unfold commandMap
  rw [findByName_foldl _ [] (by simp [namesOf]) c.name]
  have hcust : (api.map toCustom).reverse.find? (fun e => e.name == c.name) =
      some (toCustom c) := by
    apply find?_eq_some_of_unique
    · rw [List.mem_reverse]
      exact List.mem_map_of_mem toCustom hc
    · simp [toCustom]
    · intro y hy hpy
      rw [List.mem_reverse] at hy
      obtain ⟨d, hd, rfl⟩ := List.mem_map.mp hy
      have hdc : d.name = c.name := by simpa [toCustom] using hpy
      have hdceq : d = c := List.inj_on_of_nodup_map ha hd hc hdc
      rw [hdceq]
  have hfind : (builtIns ++ api.map toCustom).reverse.find? (fun e => e.name == c.name) =
      some (toCustom c) := by
    rw [List.reverse_append, List.find?_append, hcust]
    rfl
  rw [hfind]
  rfl

/-- Claim C4 witness: a dynamic "clear" command shadowing the built-in one. -/
theorem merge_dedup_dynamic_wins_witness :
    (namesOf (commandMap (builtInCommands stTwoMsgs)
      ([⟨"clear", some "custom clear", some "agentX", none⟩].map toCustom))).Nodup ∧
    (commandMap (builtInCommands stTwoMsgs)
        ([⟨"clear", some "custom clear", some "agentX", none⟩].map toCustom)).filter
      (fun e => e.name == "clear") =
      [toCustom ⟨"clear", some "custom clear", some "agentX", none⟩] ∧
    (toCustom ⟨"clear", some "custom clear", some "agentX", none⟩).isBuiltIn = false := by
  have h := merge_dedup_dynamic_wins (builtInCommands stTwoMsgs)
    [⟨"clear", some "custom clear", some "agentX", none⟩]
    ⟨"clear", some "custom clear", some "agentX", none⟩
    (by decide) (by decide) (by decide)
  exact h

end OpenChamber
